import Mathlib

/-!
Verification of the child progress analytics and report-generation pipeline
of the specialist portal (src/routes/specialist.js).

The JavaScript source is shallowly embedded:
* a JS number-or-not value is `JNum` (`num q` for a value that coerces to the
  rational `q`, `nan` for a present value that coerces to NaN);
* an absent (`undefined`/`null`) object field is `none : Option JNum`;
* a JS array that may also be a non-array value is `JArrVal`;
* an element of an upstream session array is `JElem` (`jnull` for a
  null/undefined element, on which property access throws, `jobj` otherwise);
* fallible computations (property access on null, upstream fetches) return
  `Except`;
* `Number(x) || 0` is `JNum.toQ` / `statNum`, `a ?? b ?? 0` is `coalesceNum`,
  `typeof x === 'number' ? x : undefined` is `asNum`;
* `Math.round` is `jround` (floor of x + 1/2, JavaScript round-half-up);
* `new Date(t || 0).getTime()` on a timestamp field modelled as
  `Option ℤ` (milliseconds) is `Option.getD 0`.
-/

/-- JavaScript `Math.round`: floor of `q + 1/2` (round half toward +∞). -/
def jround (q : ℚ) : ℚ := ((q + 1/2).floor : ℤ)

/-- A present JS value as seen through `Number(...)`: either a number `q`
or something that coerces to NaN. -/
inductive JNum where
  | num (q : ℚ)
  | nan
deriving DecidableEq

/-- `Number(v) || 0`: NaN (and 0 itself) becomes 0. -/
def JNum.toQ : JNum → ℚ
  | .num q => q
  | .nan => 0

/-- `a ?? b ?? 0`: first non-nullish operand, else the literal 0. -/
def coalesceNum (a b : Option JNum) : JNum :=
  (a.orElse fun _ => b).getD (.num 0)

/-- `Number(x) || 0` for a possibly-absent field (`Number(undefined)` is NaN). -/
def statNum (v : Option JNum) : ℚ :=
  (v.getD .nan).toQ

/-- `typeof x === 'number' ? x : undefined`. -/
def asNum (v : Option JNum) : Option ℚ :=
  match v with
  | some (.num q) => some q
  | _ => none

/-- One attempt object nested inside an upstream session
(`word`/`letter`/`vowel` use `""` for an absent or empty field, which is
exactly what JS truthiness tests on them observe). -/
structure AttemptObj where
  timestamp : Option ℤ
  word : String
  letter : String
  vowel : String
  success : Bool
  score : Option JNum
  pronunciationScore : Option JNum
  accuracyScore : Option JNum
  fluencyScore : Option JNum
  completenessScore : Option JNum
  recognizedText : Option String
  referenceText : Option String
  analysisSource : Option String
deriving DecidableEq

/-- An attempt object with every field absent (used to build concrete inputs). -/
def AttemptObj.empty : AttemptObj :=
  ⟨none, "", "", "", false, none, none, none, none, none, none, none, none⟩

/-- `a.word || a.letter || a.vowel || ''` — the target key of an attempt. -/
def AttemptObj.targetOf (a : AttemptObj) : String :=
  if a.word ≠ "" then a.word else if a.letter ≠ "" then a.letter else a.vowel

/-- `new Date(a.timestamp || 0).getTime()` — absent timestamp is epoch 0. -/
def tsOfA (a : AttemptObj) : ℤ := a.timestamp.getD 0

/-- An upstream session-like object: both camelCase and snake_case field
spellings, every field possibly absent, `attempts` present only when it is
an array (`Array.isArray` guard). -/
structure SessObj where
  totalAttempts : Option JNum
  total_attempts : Option JNum
  successfulAttempts : Option JNum
  successful_attempts : Option JNum
  failedAttempts : Option JNum
  failed_attempts : Option JNum
  averageScore : Option JNum
  average_score : Option JNum
  duration : Option JNum
  successRate : Option JNum
  sessionDate : Option ℤ
  session_date : Option ℤ
  attempts : Option (List AttemptObj)
deriving DecidableEq

/-- A session object with every field absent (used to build concrete inputs). -/
def SessObj.empty : SessObj :=
  ⟨none, none, none, none, none, none, none, none, none, none, none, none, none⟩

/-- The normalized session summary produced by `_normalizeSessionsForCharts`
(the object literal at src/routes/specialist.js lines 509-517). -/
structure SessionSummary where
  sessionDate : Option ℤ
  duration : ℚ
  totalAttempts : ℚ
  successfulAttempts : ℚ
  failedAttempts : ℚ
  averageScore : ℚ
  successRate : ℚ
deriving DecidableEq

/-- The body of the `.map` inside `_normalizeSessionsForCharts`
(src/routes/specialist.js lines 501-517).  Note `Number(...) || Math.max(...)`
for `failedAttempts`: a present value coercing to 0 (or NaN) is falsy and
falls through to the derived value. -/
def summarizeSession (s : SessObj) : SessionSummary :=
  let totalAttempts := (coalesceNum s.totalAttempts s.total_attempts).toQ
  let successfulAttempts := (coalesceNum s.successfulAttempts s.successful_attempts).toQ
  let failedDirect := (coalesceNum s.failedAttempts s.failed_attempts).toQ
  let failedAttempts :=
    if failedDirect = 0 then max 0 (totalAttempts - successfulAttempts) else failedDirect
  let averageScore := (coalesceNum s.averageScore s.average_score).toQ
  let duration := (coalesceNum s.duration none).toQ
  { sessionDate := s.sessionDate.orElse fun _ => s.session_date
    duration := duration
    totalAttempts := totalAttempts
    successfulAttempts := successfulAttempts
    failedAttempts := failedAttempts
    averageScore := averageScore
    successRate := if 0 < totalAttempts then successfulAttempts / totalAttempts * 100 else 0 }

/-- An element of an upstream `progress.sessions` array: `jnull` models a
null/undefined element (property access on it throws a TypeError), `jobj`
models any other value read as a session object. -/
inductive JElem where
  | jnull
  | jobj (s : SessObj)
deriving DecidableEq

/-- The value held in `progress.sessions`: possibly not an array at all
(`Array.isArray` fails), otherwise an array of elements. -/
inductive JArrVal where
  | notArr
  | arr (xs : List JElem)
deriving DecidableEq

/-- `Array.prototype.map` with a callback that throws on null elements:
stops at the first null with a TypeError, otherwise summarizes each element. -/
def mapSummarize : List JElem → Except Unit (List SessionSummary)
  | [] => .ok []
  | .jnull :: _ => .error ()
  | .jobj s :: rest => (mapSummarize rest).map fun tl => summarizeSession s :: tl

/-- `_normalizeSessionsForCharts` (src/routes/specialist.js lines 498-519):
non-array input becomes `[]`; array input is cut to its last 30 elements
(`slice(-30)`) and then summarized element by element, throwing (TypeError)
on a null element inside that window. -/
def _normalizeSessionsForCharts : JArrVal → Except Unit (List SessionSummary)
  | .notArr => .ok []
  | .arr xs => mapSummarize (xs.drop (xs.length - 30))

/-- A flattened attempt record, the object literal pushed at
src/routes/specialist.js lines 529-545. -/
structure FlatAttempt where
  sessionDate : Option ℤ
  timestamp : Option ℤ
  target : String
  letter : String
  word : String
  vowel : String
  success : Bool
  score : Option ℚ
  pronunciationScore : Option ℚ
  accuracyScore : Option ℚ
  fluencyScore : Option ℚ
  completenessScore : Option ℚ
  recognizedText : Option String
  referenceText : Option String
  analysisSource : Option String
deriving DecidableEq

/-- Builds one flattened attempt from a parent session's date and a raw
attempt object (the `attempts.push({...})` literal). -/
def flattenOne (sessionDate : Option ℤ) (a : AttemptObj) : FlatAttempt :=
  { sessionDate := sessionDate
    timestamp := a.timestamp
    target := a.targetOf
    letter := a.letter
    word := a.word
    vowel := a.vowel
    success := a.success
    score := asNum a.score
    pronunciationScore := asNum a.pronunciationScore
    accuracyScore := asNum a.accuracyScore
    fluencyScore := asNum a.fluencyScore
    completenessScore := asNum a.completenessScore
    recognizedText := a.recognizedText
    referenceText := a.referenceText
    analysisSource := a.analysisSource }

/-- The collection loop of `_flattenAttemptsFromProgress` (lines 524-547):
walks the session array in order, throwing on a null session element,
and concatenates each session's attempts annotated with the session date. -/
def collectAttempts : List JElem → Except Unit (List FlatAttempt)
  | [] => .ok []
  | .jnull :: _ => .error ()
  | .jobj s :: rest =>
    let sessionDate := s.sessionDate.orElse fun _ => s.session_date
    let these := (s.attempts.getD []).map (flattenOne sessionDate)
    (collectAttempts rest).map fun tl => these ++ tl

/-- Timestamp sort key of a flattened attempt:
`new Date(a.timestamp || 0).getTime()`. -/
def tsOf (a : FlatAttempt) : ℤ := a.timestamp.getD 0

/-- The comparator `(a, b) => tb - ta`: `a` may come before `b` exactly when
`tsOf b ≤ tsOf a` (descending by timestamp; the JS sort is stable). -/
def attemptLE (a b : FlatAttempt) : Bool := decide (tsOf b ≤ tsOf a)

/-- `Math.max(1, Math.min(limit, 200))` as a `take` count. -/
def clampLimit (limit : ℤ) : ℕ := (max 1 (min limit 200)).toNat

/-- `_flattenAttemptsFromProgress` (src/routes/specialist.js lines 521-556):
collect, stable-sort descending by timestamp, then `slice(0, clamp)`.
The JS default for `limit` is 50. -/
def _flattenAttemptsFromProgress (v : JArrVal) (limit : ℤ) :
    Except Unit (List FlatAttempt) :=
  (collectAttempts (match v with | .notArr => [] | .arr xs => xs)).map
    fun attempts => (attempts.mergeSort attemptLE).take (clampLimit limit)

/-- A session value as it can appear in a resolved session list: either a raw
upstream session object (from the sessions endpoint) or a normalized summary
(from the `_normalizeSessionsForCharts` fallback).  JS is duck-typed, so the
statistics code reads the same property names off either shape. -/
inductive SessVal where
  | raw (s : SessObj)
  | summ (m : SessionSummary)
deriving DecidableEq

/-- Property read `s.totalAttempts` (camelCase only — the statistics code
does not consult snake_case spellings). -/
def SessVal.totalAttemptsF : SessVal → Option JNum
  | .raw s => s.totalAttempts
  | .summ m => some (.num m.totalAttempts)

/-- Property read `s.successfulAttempts`. -/
def SessVal.successfulAttemptsF : SessVal → Option JNum
  | .raw s => s.successfulAttempts
  | .summ m => some (.num m.successfulAttempts)

/-- Property read `s.averageScore`. -/
def SessVal.averageScoreF : SessVal → Option JNum
  | .raw s => s.averageScore
  | .summ m => some (.num m.averageScore)

/-- Property read `s.attempts`, guarded by `Array.isArray`: a normalized
summary has no `attempts` property at all. -/
def SessVal.attemptsF : SessVal → Option (List AttemptObj)
  | .raw s => s.attempts
  | .summ _ => none

/-- `sessions.reduce((sum, s) => sum + (Number(s.totalAttempts) || 0), 0)`. -/
def totalAttemptsOf (sessions : List SessVal) : ℚ :=
  sessions.foldl (fun sum s => sum + statNum s.totalAttemptsF) 0

/-- `sessions.reduce((sum, s) => sum + (Number(s.successfulAttempts) || 0), 0)`. -/
def successfulAttemptsOf (sessions : List SessVal) : ℚ :=
  sessions.foldl (fun sum s => sum + statNum s.successfulAttemptsF) 0

/-- `sessions.reduce((sum, s) => sum + (Number(s.averageScore) || 0), 0)`. -/
def averageScoreSumOf (sessions : List SessVal) : ℚ :=
  sessions.foldl (fun sum s => sum + statNum s.averageScoreF) 0

/-- `successRate` of the analytics data route (lines 684-686). -/
def successRateOf (sessions : List SessVal) : ℚ :=
  if 0 < totalAttemptsOf sessions then
    jround (successfulAttemptsOf sessions / totalAttemptsOf sessions * 100)
  else 0

/-- `averageScore` of the analytics data route (lines 688-690). -/
def averageScoreOf (sessions : List SessVal) : ℚ :=
  if 0 < sessions.length then
    jround (averageScoreSumOf sessions / sessions.length)
  else 0

/-- The difficulty histogram accumulator `{ easy, medium, hard }`. -/
structure DifficultyCounts where
  easy : ℕ
  medium : ℕ
  hard : ℕ
deriving DecidableEq

/-- One step of the difficulty `reduce` (lines 693-699). -/
def difficultyStep (acc : DifficultyCounts) (s : SessVal) : DifficultyCounts :=
  let score := statNum s.averageScoreF
  if 80 ≤ score then { acc with easy := acc.easy + 1 }
  else if 50 ≤ score then { acc with medium := acc.medium + 1 }
  else { acc with hard := acc.hard + 1 }

/-- The difficulty histogram of the analytics data route. -/
def difficultyOf (sessions : List SessVal) : DifficultyCounts :=
  sessions.foldl difficultyStep ⟨0, 0, 0⟩

/-- The scalar statistics block of the analytics data payload. -/
structure AnalyticsStats where
  totalSessions : ℕ
  totalAttempts : ℚ
  successfulAttempts : ℚ
  successRate : ℚ
  averageScore : ℚ
deriving DecidableEq

/-- The part of the analytics data JSON response the claims are about:
the resolved session list, the stats block, and the difficulty histogram. -/
structure DataPayload where
  sessions : List SessVal
  stats : AnalyticsStats
  difficulty : DifficultyCounts
deriving DecidableEq

/-- Builds the analytics data payload from the resolved session list
(the straight-line code of lines 680-747). -/
def mkDataPayload (sessions : List SessVal) : DataPayload :=
  { sessions := sessions
    stats :=
      { totalSessions := sessions.length
        totalAttempts := totalAttemptsOf sessions
        successfulAttempts := successfulAttemptsOf sessions
        successRate := successRateOf sessions
        averageScore := averageScoreOf sessions }
    difficulty := difficultyOf sessions }

/-- One entry of the final word analysis (the object literal at
src/routes/specialist.js lines 635-640). -/
structure FinalWordEntry where
  target : String
  recognizedText : Option String
  score : Option ℚ
  analysisSource : Option String
deriving DecidableEq

/-- Builds a `FinalWordEntry` from a target and its winning attempt:
`score` prefers a numeric `pronunciationScore`, else a numeric `score`,
else null. -/
def mkFinalEntry (t : String) (a : AttemptObj) : FinalWordEntry :=
  { target := t
    recognizedText := a.recognizedText
    score := (asNum a.pronunciationScore).orElse fun _ => asNum a.score
    analysisSource := a.analysisSource }

/-- `map.get(target)` on the insertion-ordered association list that models
the JS `Map`. -/
def fwaLookup (t : String) : List (String × AttemptObj) → Option AttemptObj
  | [] => none
  | p :: rest => if p.1 = t then some p.2 else fwaLookup t rest

/-- `map.set(target, a)` on an existing key: the value is replaced, the key
keeps its insertion position. -/
def fwaReplace (m : List (String × AttemptObj)) (t : String) (a : AttemptObj) :
    List (String × AttemptObj) :=
  m.map fun p => if p.1 = t then (t, a) else p

/-- One iteration of the final-word loop (lines 626-634): skip attempts with
no resolvable target; otherwise keep the attempt when there is no previous
one for the target or its timestamp is `>=` the previous one's. -/
def fwaStep (m : List (String × AttemptObj)) (a : AttemptObj) :
    List (String × AttemptObj) :=
  let t := a.targetOf
  if t = "" then m
  else
    match fwaLookup t m with
    | none => m ++ [(t, a)]
    | some prev => if tsOfA prev ≤ tsOfA a then fwaReplace m t a else m

/-- The target → latest-attempt map built from one session's attempts. -/
def finalWordMap (attempts : List AttemptObj) : List (String × AttemptObj) :=
  attempts.foldl fwaStep []

/-- `Array.from(map.entries()).map(...)` — the emitted final word analysis
for one attempt list. -/
def finalWordAnalysisOfAttempts (attempts : List AttemptObj) : List FinalWordEntry :=
  (finalWordMap attempts).map fun p => mkFinalEntry p.1 p.2

/-- The whole final-word-analysis block (lines 619-640): operates on the last
session of the resolved list only, and on its `attempts` array only when that
property is an array. -/
def finalWordAnalysisOf (sessions : List SessVal) : List FinalWordEntry :=
  match sessions.getLast? with
  | none => []
  | some latest => finalWordAnalysisOfAttempts (latest.attemptsF.getD [])

/-- An upstream request failure, carrying the optional HTTP status the
handlers inspect (404 = "not found", anything else = other failure). -/
structure ApiErr where
  status : Option ℕ
deriving DecidableEq

/-- Response of `/progress/sessions/:id` as read by the data route:
`(response.data && response.data.sessions) ? response.data.sessions : []`. -/
structure SessionsResp where
  sessions : Option (List SessVal)
deriving DecidableEq

/-- The canonical progress record: its embedded session list (an arbitrary
JS value) plus a representative untouched field. -/
structure ProgressObj where
  childName : Option String
  sessions : JArrVal
deriving DecidableEq

/-- Response of `/progress/child/:id` as read through
`progressResponse?.data?.progress` in the data route. -/
structure ProgressResp where
  progress : Option ProgressObj
deriving DecidableEq

/-- A failure surfaced by a route: an upstream error caught at the request
boundary, or a TypeError thrown by the handler's own data processing. -/
inductive RouteErr where
  | upstream (e : ApiErr)
  | typeError
deriving DecidableEq

/-- `progress?.sessions`: optional chaining off an absent progress object
yields `undefined`, which is not an array. -/
def progressSessionsVal : Option ProgressObj → JArrVal
  | none => .notArr
  | some p => p.sessions

/-- Session resolution of the analytics data route (lines 666-678): use the
sessions endpoint's list when the call succeeds; on any failure fetch the
canonical progress record and normalize its embedded session list. -/
def resolveDataSessions (sessionsEp : Except ApiErr SessionsResp)
    (progressEp : Except ApiErr ProgressResp) : Except RouteErr (List SessVal) :=
  match sessionsEp with
  | .ok r => .ok (r.sessions.getD [])
  | .error _ =>
    match progressEp with
    | .error e => .error (.upstream e)
    | .ok pr =>
      match _normalizeSessionsForCharts (progressSessionsVal pr.progress) with
      | .error _ => .error .typeError
      | .ok ms => .ok (ms.map SessVal.summ)

/-- `GET /child/:id/analytics/data` (lines 662-757): resolve the session
list, then build the payload; any uncaught error becomes the 500 envelope. -/
def analyticsDataRoute (sessionsEp : Except ApiErr SessionsResp)
    (progressEp : Except ApiErr ProgressResp) : Except RouteErr DataPayload :=
  (resolveDataSessions sessionsEp progressEp).map mkDataPayload

/-- Response of `/progress/child/:id` as read by the interactive view route
(which checks `response.data.success` before using `data.progress`). -/
structure ViewProgressResp where
  success : Bool
  progress : ProgressObj
deriving DecidableEq

/-- Response of `/progress/sessions/:id` as read by the view route:
`sessionsResponse?.data?.sessions || []`. -/
structure ViewSessionsResp where
  sessions : Option (List SessVal)
deriving DecidableEq

/-- Response of `/progress/attempts/:id` as read by the view route:
`attemptsResponse?.data?.success ? (attemptsResponse.data.attempts || []) : []`. -/
structure AttemptsResp where
  success : Bool
  attempts : Option (List FlatAttempt)
deriving DecidableEq

/-- What the view route hands to the template: the (mutated) progress object's
fields, the attempts list and the final word analysis. -/
structure ViewPayload where
  progressChildName : Option String
  progressSessions : List SessVal
  attempts : List FlatAttempt
  finalWordAnalysis : List FinalWordEntry
deriving DecidableEq

/-- Outcome of the interactive view route: a rendered page, or a flash
message plus redirect (used both for the not-found case and the catch-all). -/
inductive ViewOutcome where
  | redirect
  | render (p : ViewPayload)
deriving DecidableEq

/-- Session resolution of the view route (lines 588-599): the endpoint list
(`|| []`) on success, otherwise `_normalizeSessionsForCharts(progress.sessions)`. -/
def resolveViewSessions (sessionsEp : Except ApiErr ViewSessionsResp)
    (progress : ProgressObj) : Except Unit (List SessVal) :=
  match sessionsEp with
  | .ok r => .ok (r.sessions.getD [])
  | .error _ =>
    (_normalizeSessionsForCharts progress.sessions).map fun ms => ms.map SessVal.summ

/-- Attempt resolution of the view route (lines 601-614). -/
def resolveViewAttempts (attemptsEp : Except ApiErr AttemptsResp)
    (progress : ProgressObj) : Except Unit (List FlatAttempt) :=
  match attemptsEp with
  | .ok r => .ok (if r.success then r.attempts.getD [] else [])
  | .error _ => _flattenAttemptsFromProgress progress.sessions 50

/-- `GET /child/:id/analytics` (lines 559-659).  After resolution the handler
executes `progress.sessions = sessions` (line 617), so the rendered progress
carries the resolved list, not the fetched one; the final word analysis then
reads the mutated `progress.sessions`.  A TypeError thrown during resolution
reaches the outer catch and turns into the flash-and-redirect path. -/
def analyticsViewRoute (progressEp : Except ApiErr ViewProgressResp)
    (sessionsEp : Except ApiErr ViewSessionsResp)
    (attemptsEp : Except ApiErr AttemptsResp) : ViewOutcome :=
  match progressEp with
  | .error _ => .redirect
  | .ok presp =>
    if presp.success = false then .redirect
    else
      match resolveViewSessions sessionsEp presp.progress,
            resolveViewAttempts attemptsEp presp.progress with
      | .ok sess, .ok atts =>
        .render
          { progressChildName := presp.progress.childName
            progressSessions := sess
            attempts := atts
            finalWordAnalysis := finalWordAnalysisOf sess }
      | _, _ => .redirect

/-- The `%PDF` signature: the UTF-8 decode of a buffer's first four bytes
equals the string `%PDF` exactly when those bytes are 0x25 0x50 0x44 0x46. -/
def pdfSignature : List ℕ := [0x25, 0x50, 0x44, 0x46]

/-- The success response of the PDF export: body bytes plus the declared
`Content-Length`. -/
structure PdfResponse where
  body : List ℕ
  contentLength : ℕ
deriving DecidableEq

/-- The guard-and-respond tail of `GET /child/:id/analytics/pdf`
(src/routes/specialist.js lines 957-974): check
`pdfBuf.slice(0, 4).toString('utf8') === '%PDF'`; throw (with a diagnostic
head snippet in debug mode) when the check fails, otherwise send the buffer
with its exact byte length. -/
def analyticsPdfRespond (debug : Bool) (pdfBuf : List ℕ) :
    Except String PdfResponse :=
  if pdfBuf.take 4 = pdfSignature then
    .ok { body := pdfBuf, contentLength := pdfBuf.length }
  else
    .error (if debug then "Generated output is not a PDF. Head=..." else
      "Generated output is not a PDF")

/-- Concrete session with `averageScore` 90, 10 attempts, 9 successful
(first session of the spec's two-session scenario). -/
def scenSessA : SessVal := .raw { SessObj.empty with
  averageScore := some (.num 90), totalAttempts := some (.num 10),
  successfulAttempts := some (.num 9) }

/-- Concrete session with `averageScore` 40, 10 attempts, 3 successful
(second session of the spec's two-session scenario). -/
def scenSessB : SessVal := .raw { SessObj.empty with
  averageScore := some (.num 40), totalAttempts := some (.num 10),
  successfulAttempts := some (.num 3) }

/-- Concrete session whose `successfulAttempts` exceeds its `totalAttempts`. -/
def overSuccSess : SessVal := .raw { SessObj.empty with
  totalAttempts := some (.num 1), successfulAttempts := some (.num 2) }

/-- Concrete session supplying an explicit numeric `failedAttempts` of 0
together with 5 total and 2 successful attempts. -/
def zeroFailedSess : SessObj := { SessObj.empty with
  failedAttempts := some (.num 0), totalAttempts := some (.num 5),
  successfulAttempts := some (.num 2) }

/-- Concrete attempt on target `cat` at timestamp 100 with a generic score. -/
def catAttemptEarly : AttemptObj := { AttemptObj.empty with
  word := "cat", timestamp := some 100, score := some (.num 10) }

/-- Concrete attempt on target `cat` at timestamp 200 with a pronunciation
score. -/
def catAttemptLate : AttemptObj := { AttemptObj.empty with
  word := "cat", timestamp := some 200, pronunciationScore := some (.num 77) }

/-- Concrete upstream session embedding the two `cat` attempts. -/
def catSession : SessObj := { SessObj.empty with
  sessionDate := some 1, attempts := some [catAttemptEarly, catAttemptLate] }

/-- Concrete session with an explicit nonzero `failedAttempts` of 4. -/
def fourFailedSess : SessObj := { SessObj.empty with
  failedAttempts := some (.num 4) }

/-- Concrete session with 5 total and 2 successful attempts and no
`failedAttempts` field. -/
def derivedFailedSess : SessObj := { SessObj.empty with
  totalAttempts := some (.num 5), successfulAttempts := some (.num 2) }

/-- Correctness statement for one entry of the target map after the loop has
consumed `processed`: the entry's key is a non-empty target, its attempt has
that target, the attempt occurs in `processed`, every earlier same-target
attempt has a `<=` timestamp and every later one a strictly smaller
timestamp (the `>=` comparison lets a later equal-timestamp attempt win). -/
def FwaEntryOk (processed : List AttemptObj) (p : String × AttemptObj) : Prop :=
  p.1 ≠ "" ∧ p.2.targetOf = p.1 ∧
  ∃ l1 l2, processed = l1 ++ p.2 :: l2 ∧
    (∀ b ∈ l1, b.targetOf = p.1 → tsOfA b ≤ tsOfA p.2) ∧
    (∀ b ∈ l2, b.targetOf = p.1 → tsOfA b < tsOfA p.2)

/-- Loop invariant of the final-word reduction: distinct keys, every entry
correct for the processed prefix, and every targeted processed attempt
represented by some entry. -/
def FwaInv (processed : List AttemptObj) (m : List (String × AttemptObj)) : Prop :=
  (m.map Prod.fst).Nodup ∧
  (∀ p ∈ m, FwaEntryOk processed p) ∧
  (∀ a ∈ processed, a.targetOf ≠ "" → ∃ p ∈ m, p.1 = a.targetOf)

/-! Helper lemmas shared across the claim theorems. -/

/-- Mapping `jobj` elements never throws: summarization is elementwise. -/
theorem mapSummarize_map_jobj (xs : List SessObj) :
    mapSummarize (xs.map JElem.jobj) = .ok (xs.map summarizeSession) := by
  induction xs with
  | nil => rfl
  | cons s t ih => simp [mapSummarize, ih, Except.map]

/-- Normalization of an array of non-null session objects: the last 30
elements, summarized in arrival order. -/
theorem normalize_obj_array (xs : List SessObj) :
    _normalizeSessionsForCharts (.arr (xs.map .jobj)) =
      .ok ((xs.drop (xs.length - 30)).map summarizeSession) := by
  show mapSummarize ((xs.map JElem.jobj).drop ((xs.map JElem.jobj).length - 30)) = _
  rw [List.length_map, ← List.map_drop, mapSummarize_map_jobj]

/-- Lower bound for JavaScript rounding. -/
theorem jround_nonneg {q : ℚ} (h : 0 ≤ q) : 0 ≤ jround q := by
  unfold jround
  have h2 : (0 : ℤ) ≤ (q + 1/2).floor := Rat.le_floor.mpr (by push_cast; linarith)
  exact_mod_cast h2

/-- Upper bound for JavaScript rounding of a value at most 100. -/
theorem jround_le_hundred {q : ℚ} (h : q ≤ 100) : jround q ≤ 100 := by
  unfold jround
  have h2 : ¬ ((101 : ℤ) ≤ (q + 1/2).floor) := by
    intro hc
    have := Rat.le_floor.mp hc
    push_cast at this
    linarith
  have h3 : (q + 1/2).floor ≤ 100 := by omega
  exact_mod_cast h3

/-- C1: the PDF export either sends a buffer whose first 4 bytes are the
`%PDF` signature (with its exact byte length declared), or throws before any
success response; a buffer lacking the signature is never sent as success. -/
theorem pdf_export_signature_guard (debug : Bool) (buf : List ℕ) :
    (∀ resp, analyticsPdfRespond debug buf = .ok resp →
      resp.body = buf ∧ resp.body.take 4 = pdfSignature ∧
      resp.contentLength = resp.body.length) ∧
    (buf.take 4 ≠ pdfSignature → ∃ msg, analyticsPdfRespond debug buf = .error msg) := by
  by_cases h : buf.take 4 = pdfSignature
  · refine ⟨fun resp hr => ?_, fun hc => absurd h hc⟩
    simp only [analyticsPdfRespond, if_pos h] at hr
    cases hr
    exact ⟨rfl, h, rfl⟩
  · refine ⟨fun resp hr => ?_, fun _ => ?_⟩
    · simp [analyticsPdfRespond, if_neg h] at hr
    · exact ⟨if debug then "Generated output is not a PDF. Head=..." else
        "Generated output is not a PDF", by unfold analyticsPdfRespond; rw [if_neg h]⟩

/-- Witness for C1: a signed buffer passes the guard and keeps the signature;
an unsigned buffer makes the export fail. -/
theorem pdf_export_signature_guard_witness :
    (([37, 80, 68, 70, 9] : List ℕ).take 4 = pdfSignature ∧
      ([37, 80, 68, 70, 9] : List ℕ).length = 5) ∧
    (∃ msg, analyticsPdfRespond true [1, 2, 3] = .error msg) :=
  ⟨⟨((pdf_export_signature_guard false [37, 80, 68, 70, 9]).1
      ⟨[37, 80, 68, 70, 9], 5⟩ (by with_unfolding_all rfl)).2.1, rfl⟩,
    (pdf_export_signature_guard true [1, 2, 3]).2 (by decide)⟩

/-- C8 counterexample: the normalizer is not total — an array whose (only)
element is null/undefined makes the `.map` callback throw a TypeError on
property access, so the function raises rather than returning a sequence. -/
theorem normalizer_null_element_throws :
    _normalizeSessionsForCharts (.arr [.jnull]) = .error () := rfl

/-- C8 (amended): the normalizer returns the empty sequence for non-array
input, and over arrays of non-null session objects it is total and returns
summaries of exactly the last 30 entries (all of them when fewer) in arrival
order, dropping the oldest upstream entries; a null/undefined element inside
that window instead raises a TypeError. -/
theorem normalizer_total_on_object_arrays :
    _normalizeSessionsForCharts .notArr = .ok [] ∧
    (∀ xs : List SessObj,
      _normalizeSessionsForCharts (.arr (xs.map .jobj)) =
        .ok ((xs.drop (xs.length - 30)).map summarizeSession) ∧
      ((xs.drop (xs.length - 30)).map summarizeSession).length = min 30 xs.length ∧
      xs.take (xs.length - 30) ++ xs.drop (xs.length - 30) = xs) := by
  refine ⟨rfl, fun xs => ⟨normalize_obj_array xs, ?_, List.take_append_drop _ _⟩⟩
  rw [List.length_map, List.length_drop]
  omega

/-- C6 counterexample: an upstream record carrying the present, numeric value
`failedAttempts = 0` (with 5 total and 2 successful attempts) is not read
directly — `Number(0)` is falsy, so the code falls through to the derived
`max(0, 5 - 2) = 3`. -/
theorem normalizer_failed_attempts_counterexample :
    zeroFailedSess.failedAttempts = some (.num 0) ∧
    (summarizeSession zeroFailedSess).failedAttempts = 3 ∧
    (summarizeSession zeroFailedSess).failedAttempts ≠ 0 := by
  refine ⟨rfl, by with_unfolding_all rfl, ?_⟩
  rw [show (summarizeSession zeroFailedSess).failedAttempts = 3 by with_unfolding_all rfl]
  norm_num

/-- C6 (amended): normalized `failedAttempts` equals the upstream value
whenever that value is present, numeric and nonzero; otherwise (absent,
non-numeric, or zero) it is `max(0, totalAttempts - successfulAttempts)`,
and in that derived case `failedAttempts + successfulAttempts =
totalAttempts` whenever `successfulAttempts ≤ totalAttempts`. -/
theorem normalizer_failed_attempts (s : SessObj) :
    ((coalesceNum s.failedAttempts s.failed_attempts).toQ ≠ 0 →
      (summarizeSession s).failedAttempts =
        (coalesceNum s.failedAttempts s.failed_attempts).toQ) ∧
    ((coalesceNum s.failedAttempts s.failed_attempts).toQ = 0 →
      (summarizeSession s).failedAttempts =
        max 0 ((summarizeSession s).totalAttempts - (summarizeSession s).successfulAttempts)) ∧
    ((coalesceNum s.failedAttempts s.failed_attempts).toQ = 0 →
      (summarizeSession s).successfulAttempts ≤ (summarizeSession s).totalAttempts →
      (summarizeSession s).failedAttempts + (summarizeSession s).successfulAttempts =
        (summarizeSession s).totalAttempts) := by
  have ht : (summarizeSession s).totalAttempts =
      (coalesceNum s.totalAttempts s.total_attempts).toQ := rfl
  have hs : (summarizeSession s).successfulAttempts =
      (coalesceNum s.successfulAttempts s.successful_attempts).toQ := rfl
  have hf : (summarizeSession s).failedAttempts =
      (if (coalesceNum s.failedAttempts s.failed_attempts).toQ = 0 then
        max 0 ((coalesceNum s.totalAttempts s.total_attempts).toQ -
          (coalesceNum s.successfulAttempts s.successful_attempts).toQ)
      else (coalesceNum s.failedAttempts s.failed_attempts).toQ) := rfl
  refine ⟨fun h0 => ?_, fun h0 => ?_, fun h0 hle => ?_⟩
  · rw [hf, if_neg h0]
  · rw [hf, if_pos h0, ht, hs]
  · rw [hf, if_pos h0, hs, ht]
    rw [ht, hs] at hle
    rw [max_eq_right (by linarith)]
    ring

/-- Witness for C6: a nonzero upstream `failedAttempts` of 4 is read
directly, and a missing one with 5 total / 2 successful attempts derives 3
with the counts adding back up. -/
theorem normalizer_failed_attempts_witness :
    (summarizeSession fourFailedSess).failedAttempts =
      (coalesceNum fourFailedSess.failedAttempts fourFailedSess.failed_attempts).toQ ∧
    (summarizeSession derivedFailedSess).failedAttempts +
      (summarizeSession derivedFailedSess).successfulAttempts =
      (summarizeSession derivedFailedSess).totalAttempts :=
  ⟨(normalizer_failed_attempts fourFailedSess).1 (by with_unfolding_all decide),
    ((normalizer_failed_attempts derivedFailedSess).2.2 (by with_unfolding_all rfl)
      (by with_unfolding_all decide))⟩

/-- Folding the difficulty step counts `easy` hits. -/
theorem difficulty_foldl_easy (l : List SessVal) :
    ∀ acc : DifficultyCounts,
      (l.foldl difficultyStep acc).easy =
        acc.easy + l.countP (fun s => decide (80 ≤ statNum s.averageScoreF)) := by
  induction l with
  | nil => intro acc; simp
  | cons s t ih =>
    intro acc
    simp only [List.foldl_cons, List.countP_cons, ih]
    unfold difficultyStep
    by_cases h80 : 80 ≤ statNum s.averageScoreF
    · simp [h80]; omega
    · by_cases h50 : 50 ≤ statNum s.averageScoreF <;> simp [h80, h50]

/-- Folding the difficulty step counts `medium` hits. -/
theorem difficulty_foldl_medium (l : List SessVal) :
    ∀ acc : DifficultyCounts,
      (l.foldl difficultyStep acc).medium =
        acc.medium + l.countP (fun s =>
          decide (statNum s.averageScoreF < 80 ∧ 50 ≤ statNum s.averageScoreF)) := by
  induction l with
  | nil => intro acc; simp
  | cons s t ih =>
    intro acc
    simp only [List.foldl_cons, List.countP_cons, ih]
    unfold difficultyStep
    by_cases h80 : 80 ≤ statNum s.averageScoreF
    · simp [h80, not_lt.mpr h80]
    · by_cases h50 : 50 ≤ statNum s.averageScoreF
      · simp [h80, h50, not_le.mp h80]; omega
      · simp [h80, h50]

/-- Folding the difficulty step counts `hard` hits. -/
theorem difficulty_foldl_hard (l : List SessVal) :
    ∀ acc : DifficultyCounts,
      (l.foldl difficultyStep acc).hard =
        acc.hard + l.countP (fun s => decide (statNum s.averageScoreF < 50)) := by
  induction l with
  | nil => intro acc; simp
  | cons s t ih =>
    intro acc
    simp only [List.foldl_cons, List.countP_cons, ih]
    unfold difficultyStep
    by_cases h80 : 80 ≤ statNum s.averageScoreF
    · simp [h80, not_lt.mpr (by linarith : (50:ℚ) ≤ statNum s.averageScoreF)]
    · by_cases h50 : 50 ≤ statNum s.averageScoreF
      · simp [h80, h50, not_lt.mpr h50]
      · simp [h80, h50, not_le.mp h50]; omega

/-- Each difficulty step increments exactly one bucket. -/
theorem difficulty_foldl_sum (l : List SessVal) :
    ∀ acc : DifficultyCounts,
      (l.foldl difficultyStep acc).easy + (l.foldl difficultyStep acc).medium +
          (l.foldl difficultyStep acc).hard =
        acc.easy + acc.medium + acc.hard + l.length := by
  induction l with
  | nil => intro acc; simp
  | cons s t ih =>
    intro acc
    simp only [List.foldl_cons, List.length_cons, ih]
    unfold difficultyStep
    by_cases h80 : 80 ≤ statNum s.averageScoreF
    · simp [h80]; omega
    · by_cases h50 : 50 ≤ statNum s.averageScoreF <;> simp [h80, h50] <;> omega

/-- C5: every session falls in exactly one difficulty bucket (easy when its
`averageScore` is at least 80, medium when at least 50, hard otherwise), so
`easy + medium + hard = totalSessions`; on the two-session scenario with
average scores 90 and 40 the histogram is `{easy: 1, medium: 0, hard: 1}`. -/
theorem difficulty_histogram_partition :
    (∀ sessions : List SessVal,
      (difficultyOf sessions).easy + (difficultyOf sessions).medium +
          (difficultyOf sessions).hard = sessions.length ∧
      (difficultyOf sessions).easy =
        sessions.countP (fun s => decide (80 ≤ statNum s.averageScoreF)) ∧
      (difficultyOf sessions).medium =
        sessions.countP (fun s =>
          decide (statNum s.averageScoreF < 80 ∧ 50 ≤ statNum s.averageScoreF)) ∧
      (difficultyOf sessions).hard =
        sessions.countP (fun s => decide (statNum s.averageScoreF < 50))) ∧
    difficultyOf [scenSessA, scenSessB] = ⟨1, 0, 1⟩ := by
  constructor
  · intro sessions
    refine ⟨?_, ?_, ?_, ?_⟩
    · rw [show difficultyOf sessions = sessions.foldl difficultyStep ⟨0,0,0⟩ from rfl,
        difficulty_foldl_sum]; simp
    · rw [show difficultyOf sessions = sessions.foldl difficultyStep ⟨0,0,0⟩ from rfl,
        difficulty_foldl_easy]; simp
    · rw [show difficultyOf sessions = sessions.foldl difficultyStep ⟨0,0,0⟩ from rfl,
        difficulty_foldl_medium]; simp
    · rw [show difficultyOf sessions = sessions.foldl difficultyStep ⟨0,0,0⟩ from rfl,
        difficulty_foldl_hard]; simp
  · with_unfolding_all decide

/-- C2 counterexample: a single session reporting 2 successful out of 1
total attempt yields a success rate of 200, outside `[0, 100]` — the code
never clamps or validates the upstream counts. -/
theorem success_rate_range_counterexample :
    successRateOf [overSuccSess] = 200 ∧ ¬ successRateOf [overSuccSess] ≤ 100 := by
  have h : successRateOf [overSuccSess] = 200 := by with_unfolding_all rfl
  exact ⟨h, by rw [h]; norm_num⟩

/-- C2 (amended): `successRate` is round(successful/total*100) when the
summed `totalAttempts` is positive and 0 otherwise, and `averageScore` is
round(mean of the per-session `averageScore`) when there are sessions and 0
otherwise; the success rate lies in `[0, 100]` for every session list whose
summed `successfulAttempts` is between 0 and the summed `totalAttempts`
(without that bound — which the code never enforces — it can leave the
range). -/
theorem aggregate_stats_formulas (sessions : List SessVal) :
    successRateOf sessions =
      (if 0 < totalAttemptsOf sessions then
        jround (successfulAttemptsOf sessions / totalAttemptsOf sessions * 100)
      else 0) ∧
    averageScoreOf sessions =
      (if 0 < sessions.length then
        jround (averageScoreSumOf sessions / sessions.length)
      else 0) ∧
    (0 ≤ successfulAttemptsOf sessions →
      successfulAttemptsOf sessions ≤ totalAttemptsOf sessions →
      0 ≤ successRateOf sessions ∧ successRateOf sessions ≤ 100) := by
  refine ⟨rfl, rfl, fun h0 hle => ?_⟩
  unfold successRateOf
  by_cases ht : 0 < totalAttemptsOf sessions
  · rw [if_pos ht]
    have hp0 : 0 ≤ successfulAttemptsOf sessions / totalAttemptsOf sessions :=
      div_nonneg h0 (le_of_lt ht)
    have hp1 : successfulAttemptsOf sessions / totalAttemptsOf sessions ≤ 1 :=
      (div_le_one ht).mpr hle
    constructor
    · exact jround_nonneg (by nlinarith)
    · exact jround_le_hundred (by nlinarith)
  · rw [if_neg ht]
    norm_num

/-- Witness for C2: the spec's two-session scenario has counts within
bounds, a success rate of 60 (inside `[0, 100]`) and an average score of
65. -/
theorem aggregate_stats_formulas_witness :
    (0 ≤ successRateOf [scenSessA, scenSessB] ∧
      successRateOf [scenSessA, scenSessB] ≤ 100) ∧
    successRateOf [scenSessA, scenSessB] = 60 ∧
    averageScoreOf [scenSessA, scenSessB] = 65 :=
  ⟨(aggregate_stats_formulas [scenSessA, scenSessB]).2.2
      (by with_unfolding_all decide) (by with_unfolding_all decide),
    by with_unfolding_all rfl, by with_unfolding_all rfl⟩

/-- The descending-timestamp comparator is transitive. -/
theorem attemptLE_trans (a b c : FlatAttempt) :
    attemptLE a b = true → attemptLE b c = true → attemptLE a c = true := by
  unfold attemptLE
  intro h1 h2
  have := of_decide_eq_true h1
  have := of_decide_eq_true h2
  exact decide_eq_true (by omega)

/-- The descending-timestamp comparator is total. -/
theorem attemptLE_total (a b : FlatAttempt) :
    (attemptLE a b || attemptLE b a) = true := by
  unfold attemptLE
  rcases le_total (tsOf b) (tsOf a) with h | h
  · rw [decide_eq_true h]; rfl
  · rw [decide_eq_true h, Bool.or_true]

/-- C7: whenever the attempt flattener returns (it throws only on a null
session element), its output is sorted descending by timestamp (absent
timestamp = 0), re-sorting that output with the same comparator changes
nothing, and its length never exceeds the caller-supplied limit clamped to
`[1, 200]` (with 50, the default, clamping to itself). -/
theorem flatten_sorted_capped (v : JArrVal) (limit : ℤ) (out : List FlatAttempt)
    (h : _flattenAttemptsFromProgress v limit = .ok out) :
    out.Pairwise (fun x y => tsOf y ≤ tsOf x) ∧
    out.mergeSort attemptLE = out ∧
    out.length ≤ clampLimit limit ∧
    1 ≤ clampLimit limit ∧ clampLimit limit ≤ 200 ∧ clampLimit 50 = 50 := by
  unfold _flattenAttemptsFromProgress at h
  generalize (match v with | JArrVal.notArr => ([] : List JElem) | JArrVal.arr xs => xs)
    = elems at h
  cases hc : collectAttempts elems with
  | error e => rw [hc] at h; exact absurd h (by simp [Except.map])
  | ok la =>
    rw [hc] at h
    simp only [Except.map] at h
    cases h
    have hsorted : ((la.mergeSort attemptLE).take (clampLimit limit)).Pairwise
        (fun a b => attemptLE a b = true) :=
      List.Pairwise.sublist (List.take_sublist _ _)
        (List.sorted_mergeSort attemptLE_trans attemptLE_total la)
    refine ⟨?_, List.mergeSort_of_sorted hsorted, ?_, ?_, ?_, ?_⟩
    · exact hsorted.imp fun hab => of_decide_eq_true hab
    · rw [List.length_take]; exact min_le_left _ _
    · unfold clampLimit; omega
    · unfold clampLimit; omega
    · unfold clampLimit; omega

/-- Witness for C7: flattening the concrete two-attempt session with the
default limit 50 yields the later attempt first, and all the C7 bounds hold
on it. -/
theorem flatten_sorted_capped_witness :
    [flattenOne (some 1) catAttemptLate,
      flattenOne (some 1) catAttemptEarly].Pairwise (fun x y => tsOf y ≤ tsOf x) ∧
    [flattenOne (some 1) catAttemptLate,
      flattenOne (some 1) catAttemptEarly].mergeSort attemptLE =
      [flattenOne (some 1) catAttemptLate, flattenOne (some 1) catAttemptEarly] ∧
    ([flattenOne (some 1) catAttemptLate,
      flattenOne (some 1) catAttemptEarly] : List FlatAttempt).length ≤ clampLimit 50 ∧
    1 ≤ clampLimit 50 ∧ clampLimit 50 ≤ 200 ∧ clampLimit 50 = 50 :=
  flatten_sorted_capped (.arr [.jobj catSession]) 50 _ (by with_unfolding_all rfl)

/-- C3 (amended): when the canonical progress fetch succeeds with an
embedded array of non-null session objects, any failure of the
sessions-listing endpoint — 404 or otherwise — is absorbed: the data route
still answers 200 with the payload built from the normalized embedded
sessions, by the very same `mkDataPayload` applied to endpoint-supplied
sessions on the success path.  (A null element in the embedded list instead
makes the fallback itself throw.) -/
theorem analytics_data_fallback (e : ApiErr) (pr : ProgressResp)
    (progressEp : Except ApiErr ProgressResp) (p : ProgressObj) (xs : List SessObj)
    (hpr : pr.progress = some p) (hsess : p.sessions = .arr (xs.map .jobj)) :
    analyticsDataRoute (.error e) (.ok pr) =
      .ok (mkDataPayload
        (((xs.drop (xs.length - 30)).map summarizeSession).map SessVal.summ)) ∧
    (∀ l : List SessVal,
      analyticsDataRoute (.ok ⟨some l⟩) progressEp = .ok (mkDataPayload l)) := by
  constructor
  · show Except.map mkDataPayload (resolveDataSessions (.error e) (.ok pr)) = _
    rw [show resolveDataSessions (.error e) (.ok pr) =
        (match _normalizeSessionsForCharts (progressSessionsVal pr.progress) with
          | .error _ => .error RouteErr.typeError
          | .ok ms => .ok (ms.map SessVal.summ)) from rfl,
      hpr, show progressSessionsVal (some p) = p.sessions from rfl, hsess,
      normalize_obj_array]
    rfl
  · intro l
    rfl

/-- Witness for C3: with the sessions endpoint failing with a 404 and the
canonical record embedding the concrete `cat` session, the data route
answers with the payload built from that session's summary; the success
path applies the same payload builder. -/
theorem analytics_data_fallback_witness :
    analyticsDataRoute (.error ⟨some 404⟩) (.ok ⟨some ⟨some "learner", .arr [.jobj catSession]⟩⟩) =
      .ok (mkDataPayload [SessVal.summ (summarizeSession catSession)]) ∧
    analyticsDataRoute (.ok ⟨some [scenSessA, scenSessB]⟩) (.ok ⟨none⟩) =
      .ok (mkDataPayload [scenSessA, scenSessB]) :=
  ⟨((analytics_data_fallback ⟨some 404⟩ ⟨some ⟨some "learner", .arr [.jobj catSession]⟩⟩
      (.ok ⟨none⟩) ⟨some "learner", .arr [.jobj catSession]⟩ [catSession] rfl rfl).1),
    ((analytics_data_fallback ⟨some 404⟩ ⟨some ⟨some "learner", .arr [.jobj catSession]⟩⟩
      (.ok ⟨none⟩) ⟨some "learner", .arr [.jobj catSession]⟩ [catSession] rfl rfl).2
      [scenSessA, scenSessB])⟩

/-- Final word analysis over normalized summaries is empty: a summary
carries no `attempts` property. -/
theorem finalWordAnalysisOf_summ (ms : List SessionSummary) :
    finalWordAnalysisOf (ms.map SessVal.summ) = [] := by
  unfold finalWordAnalysisOf
  rw [List.getLast?_map]
  cases ms.getLast? with
  | none => rfl
  | some m => rfl

/-- C10: whenever the view route renders after the sessions endpoint failed,
the final word analysis is empty — the normalizer fallback emits summaries
with no nested `attempts` array, so the latest session has nothing for the
reducer to keep. -/
theorem fallback_final_word_empty (presp : ViewProgressResp) (e : ApiErr)
    (attemptsEp : Except ApiErr AttemptsResp) (p : ViewPayload)
    (h : analyticsViewRoute (.ok presp) (.error e) attemptsEp = .render p) :
    p.finalWordAnalysis = [] := by
  obtain ⟨succ, prog⟩ := presp
  cases succ
  · exact absurd h (by simp [analyticsViewRoute])
  · rw [show analyticsViewRoute (.ok ⟨true, prog⟩) (.error e) attemptsEp =
        (match Except.map (fun ms => ms.map SessVal.summ)
            (_normalizeSessionsForCharts prog.sessions),
          resolveViewAttempts attemptsEp prog with
        | .ok sess, .ok atts =>
          ViewOutcome.render
            { progressChildName := prog.childName
              progressSessions := sess
              attempts := atts
              finalWordAnalysis := finalWordAnalysisOf sess }
        | _, _ => ViewOutcome.redirect) from rfl] at h
    cases hn : _normalizeSessionsForCharts prog.sessions with
    | error u => rw [hn] at h; exact absurd h (by simp [Except.map])
    | ok ms =>
      rw [hn] at h
      simp only [Except.map] at h
      cases ha : resolveViewAttempts attemptsEp prog with
      | error u => rw [ha] at h; exact absurd h (by simp)
      | ok atts =>
        rw [ha] at h
        injection h with h2
        rw [← h2]
        exact finalWordAnalysisOf_summ ms

/-- Witness for C10: the sessions endpoint 404s while the canonical record
embeds the `cat` session (which has two targeted attempts); the view renders
with an empty final word analysis nonetheless. -/
theorem fallback_final_word_empty_witness :
    (⟨some "learner", [SessVal.summ (summarizeSession catSession)], [], []⟩ :
      ViewPayload).finalWordAnalysis = [] :=
  fallback_final_word_empty ⟨true, ⟨some "learner", .arr [.jobj catSession]⟩⟩
    ⟨some 404⟩ (.ok ⟨true, some []⟩) _ (by with_unfolding_all rfl)

/-- C9 counterexample: the fetched progress object is mutated in place.  The
canonical record embeds the `cat` session, the sessions endpoint succeeds
with an empty list, and the rendered progress carries that empty list — the
assignment `progress.sessions = sessions` (line 617) has replaced the
fetched embedded session list, so the fetched payload is not left
unchanged. -/
theorem progress_mutation_counterexample :
    analyticsViewRoute (.ok ⟨true, ⟨some "learner", .arr [.jobj catSession]⟩⟩)
        (.ok ⟨some []⟩) (.ok ⟨true, some []⟩)
      = .render ⟨some "learner", [], [], []⟩ ∧
    ([] : List SessVal) ≠ [SessVal.raw catSession] := by
  exact ⟨by with_unfolding_all rfl, by simp⟩

/-- C9 (amended): the view route's only in-place mutation of the fetched
progress payload is the deliberate reassignment of its `sessions` field to
the resolved session list (line 617); the other progress fields reach the
template unchanged, and the attempt list and final word analysis live in new
structures derived from the resolved sessions. -/
theorem progress_sessions_reassigned (presp : ViewProgressResp)
    (sessionsEp : Except ApiErr ViewSessionsResp)
    (attemptsEp : Except ApiErr AttemptsResp) (p : ViewPayload)
    (h : analyticsViewRoute (.ok presp) sessionsEp attemptsEp = .render p) :
    p.progressChildName = presp.progress.childName ∧
    Except.ok p.progressSessions = resolveViewSessions sessionsEp presp.progress ∧
    p.finalWordAnalysis = finalWordAnalysisOf p.progressSessions := by
  obtain ⟨succ, prog⟩ := presp
  cases succ
  · exact absurd h (by simp [analyticsViewRoute])
  · rw [show analyticsViewRoute (.ok ⟨true, prog⟩) sessionsEp attemptsEp =
        (match resolveViewSessions sessionsEp prog,
          resolveViewAttempts attemptsEp prog with
        | .ok sess, .ok atts =>
          ViewOutcome.render
            { progressChildName := prog.childName
              progressSessions := sess
              attempts := atts
              finalWordAnalysis := finalWordAnalysisOf sess }
        | _, _ => ViewOutcome.redirect) from rfl] at h
    cases hn : resolveViewSessions sessionsEp prog with
    | error u => rw [hn] at h; exact absurd h (by simp)
    | ok sess =>
      rw [hn] at h
      cases ha : resolveViewAttempts attemptsEp prog with
      | error u => rw [ha] at h; exact absurd h (by simp)
      | ok atts =>
        rw [ha] at h
        injection h with h2
        rw [← h2]
        exact ⟨rfl, rfl, rfl⟩

/-- Witness for C9 (amended): on the counterexample inputs the rendered
payload keeps the fetched child field, holds exactly the resolved (endpoint)
session list, and its final word analysis is derived from it. -/
theorem progress_sessions_reassigned_witness :
    (⟨some "learner", [], [], []⟩ : ViewPayload).progressChildName =
      (⟨some "learner", .arr [.jobj catSession]⟩ : ProgressObj).childName ∧
    Except.ok (⟨some "learner", [], [], []⟩ : ViewPayload).progressSessions =
      resolveViewSessions (.ok ⟨some []⟩) ⟨some "learner", .arr [.jobj catSession]⟩ ∧
    (⟨some "learner", [], [], []⟩ : ViewPayload).finalWordAnalysis =
      finalWordAnalysisOf (⟨some "learner", [], [], []⟩ : ViewPayload).progressSessions :=
  progress_sessions_reassigned ⟨true, ⟨some "learner", .arr [.jobj catSession]⟩⟩
    (.ok ⟨some []⟩) (.ok ⟨true, some []⟩) _ (by with_unfolding_all rfl)

/-- A lookup misses exactly when no entry has the key. -/
theorem fwaLookup_none_iff (t : String) (m : List (String × AttemptObj)) :
    fwaLookup t m = none ↔ ∀ p ∈ m, p.1 ≠ t := by
  induction m with
  | nil => simp [fwaLookup]
  | cons q rest ih =>
    unfold fwaLookup
    by_cases hq : q.1 = t
    · simp [hq]
    · simp [hq, ih]

/-- A successful lookup exhibits a member with the key. -/
theorem fwaLookup_some_mem {t : String} {m : List (String × AttemptObj)}
    {v : AttemptObj} (h : fwaLookup t m = some v) : (t, v) ∈ m := by
  induction m with
  | nil => simp [fwaLookup] at h
  | cons q rest ih =>
    unfold fwaLookup at h
    by_cases hq : q.1 = t
    · rw [if_pos hq] at h
      injection h with h2
      obtain ⟨q1, q2⟩ := q
      cases hq
      cases h2
      exact List.mem_cons_self _ _
    · rw [if_neg hq] at h
      exact List.mem_cons_of_mem _ (ih h)

/-- With distinct keys, an entry is determined by its key. -/
theorem nodup_keys_unique {m : List (String × AttemptObj)}
    (hnd : (m.map Prod.fst).Nodup) {t : String} {x : AttemptObj}
    (hx : (t, x) ∈ m) {p : String × AttemptObj} (hp : p ∈ m) (hpt : p.1 = t) :
    p = (t, x) := by
  induction m with
  | nil => simp at hx
  | cons q rest ih =>
    rw [List.map_cons, List.nodup_cons] at hnd
    obtain ⟨hq, hrest⟩ := hnd
    rcases List.mem_cons.mp hx with hx1 | hx2
    · rcases List.mem_cons.mp hp with hp1 | hp2
      · rw [hp1, ← hx1]
      · exact absurd (by rw [← hx1]; exact List.mem_map.mpr ⟨p, hp2, hpt⟩) hq
    · rcases List.mem_cons.mp hp with hp1 | hp2
      · exfalso
        apply hq
        have hq1 : q.1 = t := by rw [← hp1]; exact hpt
        rw [hq1]
        exact List.mem_map.mpr ⟨(t, x), hx2, rfl⟩
      · exact ih hrest hx2 hp2

/-- Replacement rewrites values but leaves the key sequence untouched. -/
theorem fwaReplace_keys (m : List (String × AttemptObj)) (t : String)
    (a : AttemptObj) : (fwaReplace m t a).map Prod.fst = m.map Prod.fst := by
  induction m with
  | nil => rfl
  | cons q rest ih =>
    show ((if q.1 = t then (t, a) else q) :: fwaReplace rest t a).map Prod.fst
      = q.1 :: rest.map Prod.fst
    rw [List.map_cons, ih]
    by_cases hq : q.1 = t
    · rw [if_pos hq, hq]
    · rw [if_neg hq]

/-- Key presence transfers along equal key sequences. -/
theorem keys_mem_of_eq {m1 m2 : List (String × AttemptObj)}
    (hk : m1.map Prod.fst = m2.map Prod.fst) {s : String}
    (h : ∃ p ∈ m1, p.1 = s) : ∃ p ∈ m2, p.1 = s := by
  obtain ⟨p, hp, hps⟩ := h
  have hs : s ∈ m2.map Prod.fst := by
    rw [← hk]
    exact List.mem_map.mpr ⟨p, hp, hps⟩
  obtain ⟨q, hq, hqs⟩ := List.mem_map.mp hs
  exact ⟨q, hq, hqs⟩

/-- An entry stays correct when the loop consumes one more attempt, provided
that attempt either has a different target or a strictly older timestamp. -/
theorem fwaEntryOk_extend {processed : List AttemptObj} {p : String × AttemptObj}
    (a : AttemptObj) (h : FwaEntryOk processed p)
    (ha : a.targetOf = p.1 → tsOfA a < tsOfA p.2) :
    FwaEntryOk (processed ++ [a]) p := by
  obtain ⟨h1, h2, l1, l2, hsplit, hle, hlt⟩ := h
  refine ⟨h1, h2, l1, l2 ++ [a], ?_, hle, ?_⟩
  · rw [hsplit]
    simp [List.append_assoc]
  · intro b hb hbt
    rcases List.mem_append.mp hb with hb1 | hb2
    · exact hlt b hb1 hbt
    · rw [List.mem_singleton] at hb2
      subst hb2
      exact ha hbt

/-- One loop iteration preserves the final-word invariant. -/
theorem fwaInv_step (processed : List AttemptObj) (m : List (String × AttemptObj))
    (a : AttemptObj) (h : FwaInv processed m) :
    FwaInv (processed ++ [a]) (fwaStep m a) := by
  obtain ⟨hnd, hok, hcomp⟩ := h
  unfold fwaStep
  by_cases ht : a.targetOf = ""
  · rw [if_pos ht]
    refine ⟨hnd, fun p hp => fwaEntryOk_extend a (hok p hp) fun hat => ?_, fun b hb hbt => ?_⟩
    · exfalso
      apply (hok p hp).1
      rw [← hat]
      exact ht
    · rcases List.mem_append.mp hb with hb1 | hb2
      · exact hcomp b hb1 hbt
      · rw [List.mem_singleton] at hb2
        subst hb2
        exact absurd ht hbt
  · rw [if_neg ht]
    cases hl : fwaLookup a.targetOf m with
    | none =>
      have hnone := (fwaLookup_none_iff _ _).mp hl
      refine ⟨?_, ?_, ?_⟩
      · rw [List.map_append]
        rw [List.nodup_append]
        refine ⟨hnd, List.nodup_singleton _, ?_⟩
        intro s hs hs2
        rw [show ([(a.targetOf, a)].map Prod.fst) = [a.targetOf] from rfl,
          List.mem_singleton] at hs2
        obtain ⟨p, hpm, hps⟩ := List.mem_map.mp hs
        exact hnone p hpm (by rw [hps, hs2])
      · intro p hp
        rcases List.mem_append.mp hp with hp1 | hp2
        · exact fwaEntryOk_extend a (hok p hp1) fun hat => absurd hat.symm (hnone p hp1)
        · rw [List.mem_singleton] at hp2
          subst hp2
          refine ⟨ht, rfl, processed, [], rfl, ?_, by simp⟩
          intro b hb hbt
          exfalso
          obtain ⟨p, hpm, hpt⟩ := hcomp b hb (by rw [hbt]; exact ht)
          exact hnone p hpm (by rw [hpt, hbt])
      · intro b hb hbt
        rcases List.mem_append.mp hb with hb1 | hb2
        · obtain ⟨p, hpm, hpt⟩ := hcomp b hb1 hbt
          exact ⟨p, List.mem_append_left _ hpm, hpt⟩
        · rw [List.mem_singleton] at hb2
          subst hb2
          exact ⟨(b.targetOf, b), List.mem_append_right _ (List.mem_singleton.mpr rfl), rfl⟩
    | some prev =>
      have hmem : (a.targetOf, prev) ∈ m := fwaLookup_some_mem hl
      obtain ⟨hp1, hp2, u1, u2, hsplit, hle, hlt⟩ := hok _ hmem
      show FwaInv (processed ++ [a])
        (if tsOfA prev ≤ tsOfA a then fwaReplace m a.targetOf a else m)
      by_cases hts : tsOfA prev ≤ tsOfA a
      · rw [if_pos hts]
        have hmax : ∀ b ∈ processed, b.targetOf = a.targetOf → tsOfA b ≤ tsOfA a := by
          intro b hb hbt
          rw [hsplit] at hb
          rcases List.mem_append.mp hb with hb1 | hb2
          · exact le_trans (hle b hb1 hbt) hts
          · rcases List.mem_cons.mp hb2 with hb3 | hb4
            · rw [hb3]
              exact hts
            · exact le_trans (le_of_lt (hlt b hb4 hbt)) hts
        refine ⟨?_, ?_, ?_⟩
        · rw [fwaReplace_keys]
          exact hnd
        · intro p hp
          obtain ⟨q, hq, hpq⟩ := List.mem_map.mp hp
          by_cases hqt : q.1 = a.targetOf
          · have hpe : p = (a.targetOf, a) := by rw [← hpq, if_pos hqt]
            subst hpe
            exact ⟨ht, rfl, processed, [], rfl, hmax, by simp⟩
          · have hpe : p = q := by rw [← hpq, if_neg hqt]
            rw [hpe]
            exact fwaEntryOk_extend a (hok q hq) fun hat => absurd hat.symm hqt
        · intro b hb hbt
          rcases List.mem_append.mp hb with hb1 | hb2
          · exact keys_mem_of_eq (fwaReplace_keys m _ a).symm (hcomp b hb1 hbt)
          · rw [List.mem_singleton] at hb2
            subst hb2
            refine ⟨(b.targetOf, b), List.mem_map.mpr ⟨(b.targetOf, prev), hmem, ?_⟩, rfl⟩
            rw [if_pos rfl]
      · rw [if_neg hts]
        have hlt2 : tsOfA a < tsOfA prev := not_le.mp hts
        refine ⟨hnd, ?_, ?_⟩
        · intro p hp
          refine fwaEntryOk_extend a (hok p hp) fun hat => ?_
          have hpe : p = (a.targetOf, prev) := nodup_keys_unique hnd hmem hp hat.symm
          rw [hpe]
          exact hlt2
        · intro b hb hbt
          rcases List.mem_append.mp hb with hb1 | hb2
          · exact hcomp b hb1 hbt
          · rw [List.mem_singleton] at hb2
            subst hb2
            exact ⟨(b.targetOf, prev), hmem, rfl⟩

/-- The invariant holds for the fully built target map. -/
theorem fwaInv_finalWordMap (l : List AttemptObj) : FwaInv l (finalWordMap l) := by
  induction l using List.reverseRecOn with
  | nil =>
    exact ⟨List.nodup_nil, fun p hp => absurd hp (List.not_mem_nil p),
      fun a ha => absurd ha (List.not_mem_nil a)⟩
  | append_singleton l a ih =>
    rw [show finalWordMap (l ++ [a]) = fwaStep (finalWordMap l) a from
      List.foldl_concat fwaStep [] a l]
    exact fwaInv_step l (finalWordMap l) a ih

/-- C4: the final-attempt reducer works on the last session of the list
only; attempts with no resolvable target (empty word/letter/vowel) are
skipped; it emits at most one entry per distinct target; each entry carries
the attempt with the greatest timestamp for its target (absent timestamp =
epoch 0, ties resolved to the later-seen attempt by the `>=` comparison),
with the entry built by `mkFinalEntry` (pronunciation score if numeric, else
score, else null); and in particular for two same-target attempts with
timestamps `t1 < t2` the single emitted entry reflects the `t2` attempt. -/
theorem final_word_reducer_correct :
    (∀ (l : List SessVal) (s : SessVal),
      finalWordAnalysisOf (l ++ [s]) =
        finalWordAnalysisOfAttempts (s.attemptsF.getD [])) ∧
    (∀ attempts : List AttemptObj,
      ((finalWordAnalysisOfAttempts attempts).map FinalWordEntry.target).Nodup ∧
      (∀ entry ∈ finalWordAnalysisOfAttempts attempts,
        entry.target ≠ "" ∧
        ∃ a l1 l2, attempts = l1 ++ a :: l2 ∧ a.targetOf = entry.target ∧
          entry = mkFinalEntry a.targetOf a ∧
          (∀ b ∈ l1, b.targetOf = entry.target → tsOfA b ≤ tsOfA a) ∧
          (∀ b ∈ l2, b.targetOf = entry.target → tsOfA b < tsOfA a)) ∧
      (∀ a ∈ attempts, a.targetOf ≠ "" →
        ∃ entry ∈ finalWordAnalysisOfAttempts attempts,
          entry.target = a.targetOf)) ∧
    (∀ a1 a2 : AttemptObj, a1.targetOf ≠ "" → a1.targetOf = a2.targetOf →
      tsOfA a1 < tsOfA a2 →
      finalWordAnalysisOfAttempts [a1, a2] = [mkFinalEntry a2.targetOf a2]) := by
  refine ⟨fun l s => ?_, fun attempts => ?_, fun a1 a2 h1 h12 hts => ?_⟩
  · unfold finalWordAnalysisOf
    rw [List.getLast?_concat]
  · obtain ⟨hnd, hok, hcomp⟩ := fwaInv_finalWordMap attempts
    refine ⟨?_, ?_, ?_⟩
    · rw [show finalWordAnalysisOfAttempts attempts =
          (finalWordMap attempts).map (fun p => mkFinalEntry p.1 p.2) from rfl,
        List.map_map,
        show (FinalWordEntry.target ∘ fun p => mkFinalEntry p.1 p.2) = Prod.fst from
          funext fun p => rfl]
      exact hnd
    · intro entry hentry
      obtain ⟨p, hpm, hpe⟩ := List.mem_map.mp hentry
      obtain ⟨h1, h2, l1, l2, hsplit, hle, hlt⟩ := hok p hpm
      have htar : entry.target = p.1 := by rw [← hpe]; rfl
      refine ⟨by rw [htar]; exact h1, p.2, l1, l2, hsplit,
        by rw [htar]; exact h2, by rw [← hpe, h2], ?_, ?_⟩
      · intro b hb hbt
        exact hle b hb (by rw [← htar]; exact hbt)
      · intro b hb hbt
        exact hlt b hb (by rw [← htar]; exact hbt)
    · intro a ha hat
      obtain ⟨p, hpm, hpt⟩ := hcomp a ha hat
      exact ⟨mkFinalEntry p.1 p.2, List.mem_map.mpr ⟨p, hpm, rfl⟩, hpt⟩
  · have h2t : a2.targetOf ≠ "" := by rw [← h12]; exact h1
    have hstep1 : fwaStep ([] : List (String × AttemptObj)) a1 = [(a1.targetOf, a1)] := by
      unfold fwaStep
      rw [if_neg h1]
      rfl
    have hlook : fwaLookup a2.targetOf [(a1.targetOf, a1)] = some a1 := by
      unfold fwaLookup
      rw [if_pos h12]
    have hstep2 : fwaStep [(a1.targetOf, a1)] a2 = [(a2.targetOf, a2)] := by
      unfold fwaStep
      rw [if_neg h2t, hlook]
      show (if tsOfA a1 ≤ tsOfA a2 then fwaReplace [(a1.targetOf, a1)] a2.targetOf a2
        else [(a1.targetOf, a1)]) = _
      rw [if_pos (le_of_lt hts)]
      unfold fwaReplace
      rw [List.map_singleton, if_pos h12]
    rw [show finalWordAnalysisOfAttempts [a1, a2] =
        (fwaStep (fwaStep [] a1) a2).map (fun p => mkFinalEntry p.1 p.2) from rfl,
      hstep1, hstep2, List.map_singleton]

/-- Witness for C4: on the two concrete `cat` attempts (timestamps 100 and
200) the reducer emits exactly the entry of the later attempt. -/
theorem final_word_reducer_correct_witness :
    finalWordAnalysisOfAttempts [catAttemptEarly, catAttemptLate] =
      [mkFinalEntry catAttemptLate.targetOf catAttemptLate] :=
  final_word_reducer_correct.2.2 catAttemptEarly catAttemptLate
    (by with_unfolding_all decide) (by with_unfolding_all decide)
    (by with_unfolding_all decide)

/-- C3 counterexample: with the sessions endpoint failing and the canonical
record embedding `[null]`, the fallback normalization itself throws inside
the catch block, so an error (the TypeError, surfaced as the 500 envelope)
does reach the caller instead of a computed result. -/
theorem analytics_data_fallback_counterexample :
    analyticsDataRoute (.error ⟨some 404⟩) (.ok ⟨some ⟨none, .arr [.jnull]⟩⟩) =
      .error .typeError := rfl
